import Mathlib

/-!
gofindbrokensymlinks: link classification, snapshots, diff and audit.

A shallow embedding of `findbrokensymlinks.go`.

* Go `string` values are byte sequences (`GoString`); link targets may hold bytes that
  are not valid UTF-8, so Lean's `String` is not used for them.
* Go `map[string]T` is an association list with unique keys (`GoMap`); a `range` loop
  is a fold over its entries, in whatever order the entries are listed.
* A Go pointer `*Link` is an `Option Link`, `none` being the nil pointer.
* A Go `panic` is the result `none`.
* Operating-system and standard-library calls (`os.Lstat`, `os.Readlink`, `os.Stat`,
  `filepath.IsAbs`, `filepath.Dir`, `filepath.Join`, `utf8.ValidString`,
  `fmt.Sprintf("%q", _)`, what `filepath.Walk` enumerates) are the fields of a `World`.
-/

namespace FindBrokenSymlinks

/-- Go `string`: a sequence of bytes, each byte a natural number below 256. -/
abbrev GoString := List Nat

/-- Bytes of an ASCII string literal. -/
def ascii (s : String) : GoString := s.toList.map Char.toNat

/-- Go `map[string]V`: finitely many entries with pairwise distinct keys. -/
abbrev GoMap (V : Type) := AList (fun _ : GoString => V)

/-- Go index expression `m[k]` on a map of pointers: nil when the key is missing
(and nil when the key is present with a nil pointer). -/
def GoMap.index {V : Type} (m : GoMap (Option V)) (k : GoString) : Option V :=
  (m.lookup k).getD none

/-- The constants of `type LinkCategory int`, in `iota` order. -/
inductive LinkCategory where
  | BadLink : LinkCategory
  | BrokenLink : LinkCategory
  | GoodLink : LinkCategory
deriving DecidableEq, Repr

/-- Go `type Link struct { Target string; Typ LinkCategory }`. -/
structure Link where
  Target : GoString
  Typ : LinkCategory
deriving DecidableEq, Repr

/-- Go `var linkCategoryMap = map[string]LinkCategory{...}`. -/
def linkCategoryMap : GoMap LinkCategory :=
  AList.insert (ascii "Bad") LinkCategory.BadLink
    (AList.insert (ascii "Broken") LinkCategory.BrokenLink
      (AList.insert (ascii "Good") LinkCategory.GoodLink ∅))

/-- Go `func (c LinkCategory) String() string`. The `default` branch of the source is
not reachable for the three declared constants. -/
def LinkCategory.String : LinkCategory → GoString
  | .BadLink => ascii "Bad"
  | .BrokenLink => ascii "Broken"
  | .GoodLink => ascii "Good"

/-- Go `func (c LinkCategory) MarshalJSON()`: `json.Marshal(c.String())`, with
`json.Marshal` on strings passed in as `jsonMarshal`. -/
def LinkCategory.MarshalJSON (jsonMarshal : GoString → GoString) (c : LinkCategory) :
    GoString :=
  jsonMarshal c.String

/-- The two errors `UnmarshalJSON` can return. -/
inductive UnmarshalError where
  | json : UnmarshalError
  | unknownLinkCategoryType : GoString → UnmarshalError
deriving DecidableEq, Repr

/-- Go `func (c *LinkCategory) UnmarshalJSON(data []byte) error`.
`jsonUnmarshal` is `json.Unmarshal(data, &str)` (`none` when it returns an error).
The result is the returned error (`none` is the nil error) and the value `*c` holds
afterwards. -/
def LinkCategory.UnmarshalJSON (jsonUnmarshal : GoString → Option GoString)
    (c : LinkCategory) (data : GoString) : Option UnmarshalError × LinkCategory :=
  match jsonUnmarshal data with
  | none => (some UnmarshalError.json, c)
  | some str =>
    match linkCategoryMap.lookup str with
    | none => (some (UnmarshalError.unknownLinkCategoryType str), c)
    | some v => (none, v)

/-- Go `type DB struct { TimeStamp time.Time; Links map[string]*Link }`; the instant
is an abstract number. -/
structure DB where
  TimeStamp : Nat
  Links : GoMap (Option Link)

/-- A snapshot in the sense of the data model: every stored pointer is a record, none
is nil. Every map built by `add` from `&Link{...}` values has this property. -/
def DB.wellFormed (db : DB) : Bool :=
  db.Links.entries.all (fun e => e.2.isSome)

/-- Go `func (db *DB) add(path string, l *Link)`; `none` is the panic. -/
def DB.add (db : DB) (path : GoString) (l : Option Link) : Option DB :=
  match db.Links.index path with
  | some _ => none
  | none => some { db with Links := db.Links.insert path l }

/-- Go `type LinkPair struct { oldLink *Link; newLink *Link }`. -/
structure LinkPair where
  oldLink : Option Link
  newLink : Option Link
deriving DecidableEq, Repr

/-- Body of the first loop of `diff` (`for k, v := range db.Links`), on the result map
`m`. Reading `v.Target` through a nil `v` panics. -/
def diffNewStep (old : DB) (m : GoMap LinkPair) (k : GoString) (v : Option Link) :
    Option (GoMap LinkPair) :=
  match old.Links.index k with
  | none => some (m.insert k ⟨none, v⟩)
  | some vOld =>
    match v with
    | none => none
    | some vNew =>
      if vOld.Target ≠ vNew.Target ∨ vOld.Typ ≠ vNew.Typ then
        some (m.insert k ⟨some vOld, some vNew⟩)
      else some m

/-- Body of the second loop of `diff` (`for k, vOld := range old.Links`). -/
def diffOldStep (db : DB) (m : GoMap LinkPair) (k : GoString) (vOld : Option Link) :
    GoMap LinkPair :=
  match db.Links.index k with
  | some _ => m
  | none => m.insert k ⟨vOld, none⟩

/-- Go `func (db *DB) diff(old *DB) *map[string]*LinkPair`; `none` is a panic. -/
def DB.diff (db old : DB) : Option (GoMap LinkPair) :=
  (db.Links.entries.foldlM (fun m e => diffNewStep old m e.1 e.2) ∅).map
    (fun m => old.Links.entries.foldl (fun m e => diffOldStep db m e.1 e.2) m)

/-- Store `x` under `k` when there is an `x`, else leave the map as it is. -/
def GoMap.store {V : Type} (m : GoMap V) (k : GoString) (x : Option V) : GoMap V :=
  match x with
  | some x => m.insert k x
  | none => m

/-- The pair the first loop of `diff` stores under `k`, or `none` when that iteration
stores nothing (also when it panics). -/
def diffNewValue (old : DB) (k : GoString) (v : Option Link) : Option LinkPair :=
  match old.Links.index k with
  | none => some ⟨none, v⟩
  | some vOld =>
    match v with
    | none => none
    | some vNew =>
      if vOld.Target ≠ vNew.Target ∨ vOld.Typ ≠ vNew.Typ then some ⟨some vOld, some vNew⟩
      else none

/-- The pair the second loop of `diff` stores under `k`, or `none` when it stores
nothing. -/
def diffOldValue (db : DB) (k : GoString) (vOld : Option Link) : Option LinkPair :=
  match db.Links.index k with
  | some _ => none
  | none => some ⟨vOld, none⟩

/-! ## The outside world -/

/-- The part of an `os.FileInfo` the program reads: `Mode()&os.ModeSymlink != 0` and
`IsDir()`. -/
structure FileInfo where
  symlink : Bool
  isDir : Bool
deriving DecidableEq, Repr

mutual
/-- A filesystem entry as `filepath.Walk` meets it: a name whose `Lstat` fails, a
non-directory that is not a symbolic link, a symbolic link, or a directory with the
flag "reading its names failed" and its entries in the order `readDirNames` lists
them. -/
inductive Entry where
  | lstatErr : Entry
  | file : Entry
  | symlink : Entry
  | dir : Bool → Entries → Entry
/-- The named entries of a directory. -/
inductive Entries where
  | nil : Entries
  | cons : GoString → Entry → Entries → Entries
end

/-- The `os.FileInfo` that `Lstat` gives for an entry; `none` is the nil `FileInfo` of a
failed `Lstat`. -/
def Entry.info : Entry → Option FileInfo
  | .lstatErr => none
  | .file => some ⟨false, false⟩
  | .symlink => some ⟨true, false⟩
  | .dir _ _ => some ⟨false, true⟩

/-- Whether `Lstat` reports the entry as a directory. -/
def Entry.isDir : Entry → Bool
  | .dir _ _ => true
  | _ => false

/-- The system and library calls the program makes. A failed call is `none`.
`Quote` is `fmt.Sprintf("%q", s)`; `Tree p` is what `filepath.Walk` finds at `p`. -/
structure World where
  Lstat : GoString → Option FileInfo
  Readlink : GoString → Option GoString
  Stat : GoString → Option FileInfo
  IsAbs : GoString → Bool
  Dir : GoString → GoString
  Join : GoString → GoString → GoString
  ValidString : GoString → Bool
  Quote : GoString → GoString
  Getwd : Option GoString
  Tree : GoString → Entry

/-! ## Link classifier -/

/-- Go `func inspectLink(path string) (isLink bool, isDir bool, targ string, cat
LinkCategory)`; `none` is a panic. Results not assigned keep their zero values
(`false`, the empty string, `BadLink`). -/
def inspectLink (w : World) (path : GoString) :
    Option (Bool × Bool × GoString × LinkCategory) :=
  match w.Lstat path with
  | none => none
  | some fi =>
    if fi.symlink then
      match w.Readlink path with
      | none => none
      | some targ =>
        let fullTarg := if w.IsAbs targ then targ else w.Join (w.Dir path) targ
        match w.Stat fullTarg with
        | some targFI => some (true, targFI.isDir, targ, LinkCategory.GoodLink)
        | none =>
          if w.ValidString targ then some (true, false, targ, LinkCategory.BrokenLink)
          else some (true, false, w.Quote targ, LinkCategory.BadLink)
    else some (false, fi.isDir, [], LinkCategory.BadLink)

/-! ## Scan -/

/-- Go `func walk(path string, info os.FileInfo, err error, db *DB, count *uint64,
showProgress bool) error`. `err` says whether the error passed in is non-nil. The result
is the snapshot and the counter afterwards (the returned error is then nil); `none` is a
panic. Printing the progress dot is left out. -/
def walk (w : World) (path : GoString) (err : Bool) (db : DB) (count : Nat)
    (showProgress : Bool) : Option (DB × Nat) :=
  if err then none
  else
    let count1 := if showProgress then (count + 1) % 2 ^ 64 else count
    match inspectLink w path with
    | none => none
    | some (isLink, _, target, cat) =>
      if isLink then
        match cat with
        | .GoodLink => (db.add path (some ⟨target, .GoodLink⟩)).map (fun d => (d, count1))
        | .BrokenLink => (db.add path (some ⟨target, .BrokenLink⟩)).map (fun d => (d, count1))
        | .BadLink => (db.add path (some ⟨w.Quote target, .BadLink⟩)).map (fun d => (d, count1))
      else some (db, count1)

/-- The error a walk callback of this program returns: nil or `filepath.SkipDir`. -/
inductive WalkErr where
  | nil : WalkErr
  | SkipDir : WalkErr
deriving DecidableEq, Repr

/-- A `filepath.WalkFunc` acting on the snapshot under construction and the counter:
path, `info` (`none` is nil), whether `err` is non-nil, state; `none` is a panic. -/
abbrev WalkFunc :=
  GoString → Option FileInfo → Bool → DB × Nat → Option (WalkErr × (DB × Nat))

/-- The closure `fnc` of `scanCommand`. Calling `info.IsDir()` on a nil `info`
panics. -/
def fnc (w : World) (skipFiles : GoMap Bool) (showProgress : Bool) : WalkFunc :=
  fun path info err st =>
    match skipFiles.lookup path with
    | some _ =>
      match info with
      | none => none
      | some fi => if fi.isDir then some (WalkErr.SkipDir, st) else some (WalkErr.nil, st)
    | none => (walk w path err st.1 st.2 showProgress).map (fun r => (WalkErr.nil, r))

mutual
/-- Go `filepath.Walk` below its first `Lstat` (the library's `walk`), for callbacks
that return nil or `SkipDir`: a non-directory gets one callback; a directory gets one
callback, carrying the error of reading its names, and is descended into only when both
that error and the callback's result are nil. For an entry whose `Lstat` failed the
callback is called with a nil `info` and the error. -/
def walkEntry (join : GoString → GoString → GoString) (walkFn : WalkFunc)
    (path : GoString) : Entry → DB × Nat → Option (WalkErr × (DB × Nat))
  | .lstatErr, st => walkFn path none true st
  | .file, st => walkFn path (some ⟨false, false⟩) false st
  | .symlink, st => walkFn path (some ⟨true, false⟩) false st
  | .dir readErr children, st =>
    match walkFn path (some ⟨false, true⟩) readErr st with
    | none => none
    | some (err1, st1) =>
      if readErr = true ∨ err1 ≠ WalkErr.nil then some (err1, st1)
      else walkEntries join walkFn path children st1
/-- The loop of the library's `walk` over the names of a directory: `SkipDir` from a
directory (or from the callback on a failed `Lstat`) is swallowed, `SkipDir` from
anything else ends the loop and is returned. -/
def walkEntries (join : GoString → GoString → GoString) (walkFn : WalkFunc)
    (path : GoString) : Entries → DB × Nat → Option (WalkErr × (DB × Nat))
  | .nil, st => some (WalkErr.nil, st)
  | .cons name e rest, st =>
    match walkEntry join walkFn (join path name) e st with
    | none => none
    | some (err, st1) =>
      if err ≠ WalkErr.nil ∧ e.info ≠ none ∧ e.isDir = false then some (err, st1)
      else walkEntries join walkFn path rest st1
end

/-- The files `scanCommand` walks: the arguments, or the working directory when there
are none (`none`: `os.Getwd` failed, a panic). -/
def scanFiles (w : World) (args : List GoString) : Option (List GoString) :=
  if args.length = 0 then w.Getwd.map (fun wd => [wd]) else some args

/-- Go `skipFiles := map[string]bool{}; for _, v := range ... { skipFiles[v] = true }`. -/
def makeSkipFiles (skip : List GoString) : GoMap Bool :=
  skip.foldl (fun m v => m.insert v true) ∅

/-- Go `func scanCommand(args []string)`, from the parsed flags on: `skip` is
`strings.Split(*skip, ",")`, `args` is `flags.Args()`, `now` is `time.Now()`. The result
is the snapshot handed to `db.save`; `none` is a panic. Each `filepath.Walk(f, fnc)`
starts at what `Lstat` finds at `f`, and its returned error is dropped. -/
def scanCommand (w : World) (now : Nat) (showProgress : Bool) (skip : List GoString)
    (args : List GoString) : Option DB :=
  match scanFiles w args with
  | none => none
  | some files =>
    (files.foldlM
      (fun st f =>
        (walkEntry w.Join (fnc w (makeSkipFiles skip) showProgress) f (w.Tree f) st).map
          (fun r => r.2))
      ((⟨now, ∅⟩ : DB), 0)).map (fun st => st.1)

mutual
/-- The paths `filepath.Walk` forms strictly beneath `path` for an entry: those of all
entries in the subtree of a directory. -/
def Entry.pathsBelow (join : GoString → GoString → GoString) (path : GoString) :
    Entry → List GoString
  | .dir _ children => children.paths join path
  | _ => []
/-- The paths of the named entries of a directory at `path` and of everything beneath
them. -/
def Entries.paths (join : GoString → GoString → GoString) (path : GoString) :
    Entries → List GoString
  | .nil => []
  | .cons name e rest =>
    join path name :: (e.pathsBelow join (join path name) ++ rest.paths join path)
end

mutual
/-- The visits of the Scan Orchestrator as the spec words them (section 4.2: before
visiting any entry, check it against the skip-set; if present and the entry is a
directory, prune the entire subtree; if present and not a directory, skip just that
entry). An entry whose path is in the skip-set is not visited, and nothing beneath it
is; any other entry is visited, and for a directory so are its entries, each in turn. -/
def Entry.specVisited (join : GoString → GoString → GoString) (skip : List GoString)
    (path : GoString) : Entry → List GoString
  | .lstatErr => if path ∈ skip then [] else [path]
  | .file => if path ∈ skip then [] else [path]
  | .symlink => if path ∈ skip then [] else [path]
  | .dir _ children =>
    if path ∈ skip then [] else path :: children.specVisited join skip path
/-- The visits, in the spec's words, of the entries of a directory at `path`: those of
the first entry, then those of the others, whatever became of the first. -/
def Entries.specVisited (join : GoString → GoString → GoString) (skip : List GoString)
    (path : GoString) : Entries → List GoString
  | .nil => []
  | .cons name e rest =>
    e.specVisited join skip (join path name) ++ rest.specVisited join skip path
end

/-! ## Audit -/

/-- One call `reportLink(label, src, trg)`. -/
structure ReportedLink where
  label : GoString
  src : GoString
  trg : GoString
deriving DecidableEq, Repr

/-- Body of the loop of `auditCommand` for the entry `path`, `v`: the call to
`reportLink` it makes, if any; the outer `none` is a panic (from `inspectLink`, or from
reading `v.Typ` through a nil `v`). -/
def auditStep (w : World) (path : GoString) (v : Option Link) :
    Option (Option ReportedLink) :=
  match inspectLink w path with
  | none => none
  | some (isLink, _, target, cat) =>
    if isLink = false then some (some ⟨ascii "No longer a link:", path, target⟩)
    else
      match v with
      | none => none
      | some l =>
        if l.Typ ≠ cat ∨ l.Target ≠ target then
          some (some ⟨ascii "Link changed:", path, target⟩)
        else some none

/-- Go `func auditCommand(args []string)`, from the loaded snapshot on: the calls to
`reportLink`, in order. -/
def auditCommand (w : World) (db : DB) : Option (List ReportedLink) :=
  db.Links.entries.foldlM
    (fun acc e => (auditStep w e.1 e.2).map (fun r => acc ++ r.toList)) []

/-! ## Sample data -/

/-- What a path of the sample tree holds. -/
inductive Node where
  | file : Node
  | dir : Node
  | link : GoString → Node
deriving DecidableEq, Repr

/-- The sample tree: the directory of the repository's tests under `/t`, without its
link `dir/dirRecurse`, and with a link `bad` whose target is the single byte `0xff`
(not UTF-8) and a directory `dir/sub` holding a link with an absolute target. -/
def sampleNodes : List (GoString × Node) :=
  [(ascii "/t", .dir),
   (ascii "/t/bad", .link [255]),
   (ascii "/t/broken", .link (ascii "brk")),
   (ascii "/t/dir", .dir),
   (ascii "/t/dir/dirfile", .file),
   (ascii "/t/dir/dirfilelink", .link (ascii "dirfile")),
   (ascii "/t/dir/sub", .dir),
   (ascii "/t/dir/sub/lnk", .link (ascii "/t/src")),
   (ascii "/t/dirlink", .link (ascii "dir")),
   (ascii "/t/good", .link (ascii "src")),
   (ascii "/t/src", .file)]

/-- `Lstat` on the sample tree. -/
def sampleLstat (p : GoString) : Option FileInfo :=
  match sampleNodes.lookup p with
  | none => none
  | some .file => some ⟨false, false⟩
  | some .dir => some ⟨false, true⟩
  | some (.link _) => some ⟨true, false⟩

/-- `Readlink` on the sample tree. -/
def sampleReadlink (p : GoString) : Option GoString :=
  match sampleNodes.lookup p with
  | some (.link raw) => some raw
  | _ => none

/-- `filepath.IsAbs` on Unix: the path starts with a slash. -/
def sampleIsAbs (p : GoString) : Bool := p.head? = some 47

/-- `filepath.Join` of a clean directory path and a plain name. -/
def sampleJoin (a b : GoString) : GoString := a ++ 47 :: b

/-- `filepath.Dir` of a clean path with at least two components. -/
def sampleDir (p : GoString) : GoString :=
  ((p.reverse.dropWhile (fun b => b != 47)).drop 1).reverse

/-- `Stat` on the sample tree: follows links, at most `fuel` of them. -/
def sampleStat : Nat → GoString → Option FileInfo
  | fuel, p =>
    match sampleNodes.lookup p with
    | none => none
    | some .file => some ⟨false, false⟩
    | some .dir => some ⟨false, true⟩
    | some (.link raw) =>
      match fuel with
      | 0 => none
      | fuel + 1 =>
        sampleStat fuel (if sampleIsAbs raw then raw else sampleJoin (sampleDir p) raw)

/-- `utf8.ValidString` on strings in which no byte from `0x80` up belongs to a
well-formed multi-byte sequence: valid exactly when all bytes are ASCII. -/
def sampleValidString (s : GoString) : Bool := s.all (fun b => b < 128)

/-- A hexadecimal digit, lower case. -/
def hexDigit (n : Nat) : Nat := if n < 10 then 48 + n else 87 + n

/-- The body of `strconv.Quote` on strings of printable ASCII and stray bytes from
`0x80` up: the double quote and the backslash get a backslash, other printable ASCII
stays, any other byte becomes `\x` and two hexadecimal digits. -/
def sampleQuoteBody : GoString → GoString
  | [] => []
  | b :: bs =>
    (if b = 34 then [92, 34]
     else if b = 92 then [92, 92]
     else if 32 ≤ b ∧ b < 127 then [b]
     else [92, 120, hexDigit (b / 16), hexDigit (b % 16)]) ++ sampleQuoteBody bs

/-- `fmt.Sprintf("%q", s)` on such strings: the body between double quotes. -/
def sampleQuote (s : GoString) : GoString := 34 :: sampleQuoteBody s ++ [34]

/-- The entry `/t/dir/sub`. -/
def sampleSubEntry : Entry :=
  .dir false (.cons (ascii "lnk") .symlink .nil)

/-- The entry `/t/dir`. -/
def sampleDirEntry : Entry :=
  .dir false
    (.cons (ascii "dirfile") .file
      (.cons (ascii "dirfilelink") .symlink
        (.cons (ascii "sub") sampleSubEntry .nil)))

/-- The entry `/t`. -/
def sampleRootEntry : Entry :=
  .dir false
    (.cons (ascii "bad") .symlink
      (.cons (ascii "broken") .symlink
        (.cons (ascii "dir") sampleDirEntry
          (.cons (ascii "dirlink") .symlink
            (.cons (ascii "good") .symlink
              (.cons (ascii "src") .file .nil))))))

/-- What `filepath.Walk` finds at a path of the sample tree. -/
def sampleTree (p : GoString) : Entry :=
  if p = ascii "/t" then sampleRootEntry
  else if p = ascii "/t/dir" then sampleDirEntry
  else if p = ascii "/t/dir/sub" then sampleSubEntry
  else
    match sampleNodes.lookup p with
    | some (.link _) => .symlink
    | some _ => .file
    | none => .lstatErr

/-- The sample world. -/
def sampleWorld : World :=
  { Lstat := sampleLstat
    Readlink := sampleReadlink
    Stat := sampleStat 40
    IsAbs := sampleIsAbs
    Dir := sampleDir
    Join := sampleJoin
    ValidString := sampleValidString
    Quote := sampleQuote
    Getwd := some (ascii "/t")
    Tree := sampleTree }


/-- The snapshot that scanning `/t` of the sample tree with `/t/dir` skipped returns. -/
def sampleScanned : DB :=
  { TimeStamp := 0
    Links := AList.insert (ascii "/t/good") (some ⟨ascii "src", .GoodLink⟩)
      (AList.insert (ascii "/t/dirlink") (some ⟨ascii "dir", .GoodLink⟩)
        (AList.insert (ascii "/t/broken") (some ⟨ascii "brk", .BrokenLink⟩)
          (AList.insert (ascii "/t/bad")
            (some ⟨sampleQuote (sampleQuote [255]), .BadLink⟩) ∅))) }

/-- A snapshot with two links. -/
def sampleOld : DB :=
  { TimeStamp := 1
    Links := AList.insert (ascii "/t/good") (some ⟨ascii "src", .GoodLink⟩)
      (AList.insert (ascii "/t/broken") (some ⟨ascii "brk", .BrokenLink⟩) ∅) }

/-- A later snapshot: `good` has become dangling, `dirlink` is new, `broken` is gone. -/
def sampleNew : DB :=
  { TimeStamp := 2
    Links := AList.insert (ascii "/t/good") (some ⟨ascii "src", .BrokenLink⟩)
      (AList.insert (ascii "/t/dirlink") (some ⟨ascii "dir", .GoodLink⟩) ∅) }

/-! ## Category encoding -/

theorem ascii_Bad : ascii "Bad" = [66, 97, 100] := by decide

theorem ascii_Broken : ascii "Broken" = [66, 114, 111, 107, 101, 110] := by decide

theorem ascii_Good : ascii "Good" = [71, 111, 111, 100] := by decide

theorem linkCategoryMap_lookup (s : GoString) (c : LinkCategory) :
    linkCategoryMap.lookup s = some c ↔ s = c.String := by
  unfold linkCategoryMap
  by_cases h1 : s = ascii "Bad"
  · subst h1
    rw [AList.lookup_insert]
    cases c <;> simp [LinkCategory.String, ascii_Bad, ascii_Broken, ascii_Good]
  · rw [AList.lookup_insert_ne h1]
    by_cases h2 : s = ascii "Broken"
    · subst h2
      rw [AList.lookup_insert]
      cases c <;> simp [LinkCategory.String, ascii_Bad, ascii_Broken, ascii_Good]
    · rw [AList.lookup_insert_ne h2]
      by_cases h3 : s = ascii "Good"
      · subst h3
        rw [AList.lookup_insert]
        cases c <;> simp [LinkCategory.String, ascii_Bad, ascii_Broken, ascii_Good]
      · rw [AList.lookup_insert_ne h3, AList.lookup_empty]
        cases c <;> simp [LinkCategory.String, h1, h2, h3]

theorem UnmarshalJSON_token (jsonUnmarshal : GoString → Option GoString)
    (c0 : LinkCategory) {data s : GoString} (h : jsonUnmarshal data = some s) :
    LinkCategory.UnmarshalJSON jsonUnmarshal c0 data =
      match linkCategoryMap.lookup s with
      | none => (some (UnmarshalError.unknownLinkCategoryType s), c0)
      | some v => (none, v) := by
  simp only [LinkCategory.UnmarshalJSON, h]

/-- C7: the category encoding pairs Malformed, Dangling and Valid with the tokens
"Bad", "Broken" and "Good"; `MarshalJSON` encodes through `String`; when the JSON layer
decodes the data to the token `s`, `UnmarshalJSON` succeeds with result `c` exactly when
`s` is the encoding of `c`, and a token that encodes no category is rejected with an
error, the destination keeping its previous value. Distinct categories have distinct
tokens. -/
theorem category_encoding_bijective (jsonMarshal : GoString → GoString)
    (jsonUnmarshal : GoString → Option GoString) (c0 : LinkCategory) (data s : GoString)
    (h : jsonUnmarshal data = some s) :
    (LinkCategory.BadLink.String = ascii "Bad" ∧
      LinkCategory.BrokenLink.String = ascii "Broken" ∧
      LinkCategory.GoodLink.String = ascii "Good") ∧
    (∀ c : LinkCategory, c.MarshalJSON jsonMarshal = jsonMarshal c.String) ∧
    (∀ c : LinkCategory,
      LinkCategory.UnmarshalJSON jsonUnmarshal c0 data = (none, c) ↔ s = c.String) ∧
    ((∀ c : LinkCategory, s ≠ c.String) →
      LinkCategory.UnmarshalJSON jsonUnmarshal c0 data =
        (some (UnmarshalError.unknownLinkCategoryType s), c0)) ∧
    (∀ c c' : LinkCategory, c.String = c'.String → c = c') := by
  have hU := UnmarshalJSON_token jsonUnmarshal c0 h
  refine ⟨⟨rfl, rfl, rfl⟩, fun _ => rfl, ?_, ?_, ?_⟩
  · intro c
    rw [hU]
    cases hl : linkCategoryMap.lookup s with
    | none =>
      constructor
      · intro hh
        simp at hh
      · intro hs
        rw [(linkCategoryMap_lookup s c).2 hs] at hl
        exact absurd hl (by simp)
    | some v =>
      constructor
      · intro hh
        have hv : v = c := by simpa using hh
        exact (linkCategoryMap_lookup s c).1 (hv ▸ hl)
      · intro hs
        rw [(linkCategoryMap_lookup s c).2 hs] at hl
        have hv : c = v := by simpa using hl
        simp [hv]
  · intro hs
    rw [hU]
    cases hl : linkCategoryMap.lookup s with
    | none => rfl
    | some v => exact absurd ((linkCategoryMap_lookup s v).1 hl) (hs v)
  · intro c c' hc
    cases c <;> cases c' <;>
      simp [LinkCategory.String, ascii_Bad, ascii_Broken, ascii_Good] at hc ⊢

/-- C7 at the token "Good", with a JSON layer that hands the data over unchanged. -/
theorem category_encoding_bijective_witness :
    (some : GoString → Option GoString) (ascii "Good") = some (ascii "Good") ∧
    ((LinkCategory.BadLink.String = ascii "Bad" ∧
      LinkCategory.BrokenLink.String = ascii "Broken" ∧
      LinkCategory.GoodLink.String = ascii "Good") ∧
    (∀ c : LinkCategory, c.MarshalJSON id = id c.String) ∧
    (∀ c : LinkCategory,
      LinkCategory.UnmarshalJSON some LinkCategory.BadLink (ascii "Good") = (none, c) ↔
        ascii "Good" = c.String) ∧
    ((∀ c : LinkCategory, ascii "Good" ≠ c.String) →
      LinkCategory.UnmarshalJSON some LinkCategory.BadLink (ascii "Good") =
        (some (UnmarshalError.unknownLinkCategoryType (ascii "Good")),
          LinkCategory.BadLink)) ∧
    (∀ c c' : LinkCategory, c.String = c'.String → c = c')) :=
  ⟨rfl, category_encoding_bijective id some LinkCategory.BadLink (ascii "Good")
    (ascii "Good") rfl⟩

/-! ## Snapshots -/

theorem wellFormed_entry {db : DB} (h : db.wellFormed = true) {k : GoString}
    {v : Option Link} (hv : db.Links.lookup k = some v) : v.isSome = true := by
  have hmem : (⟨k, v⟩ : Sigma fun _ : GoString => Option Link) ∈ db.Links.entries :=
    AList.mem_lookup_iff.1 hv
  exact (List.all_eq_true.1 h) _ hmem

theorem index_eq_none_iff {db : DB} (h : db.wellFormed = true) (k : GoString) :
    db.Links.index k = none ↔ k ∉ db.Links := by
  unfold GoMap.index
  cases hl : db.Links.lookup k with
  | none => simpa using AList.lookup_eq_none.1 hl
  | some v =>
    have hv := wellFormed_entry h hl
    have hk : k ∈ db.Links := AList.lookup_isSome.1 (by simp [hl])
    cases v with
    | none => simp at hv
    | some l => simp [hk]

theorem lookup_eq_some_index {db : DB} {k : GoString}
    {v : Option Link} (hv : db.Links.lookup k = some v) : v = db.Links.index k := by
  unfold GoMap.index
  rw [hv]
  rfl

/-- C8: on a snapshot (no nil record stored), `db.add(p, l)` panics exactly when `p`
is already a key of `db.Links`; otherwise it returns a snapshot whose mapping sends `p`
to `l`, agrees with the old mapping at every other path, still has pairwise distinct
keys and no nil record, and keeps the time stamp. -/
theorem add_panics_iff_duplicate (db : DB) (p : GoString) (l : Link)
    (h : db.wellFormed = true) :
    (db.add p (some l) = none ↔ p ∈ db.Links) ∧
    (p ∉ db.Links →
      ∃ db', db.add p (some l) = some db' ∧
        db'.Links.index p = some l ∧
        (∀ q, q ≠ p → db'.Links.lookup q = db.Links.lookup q) ∧
        (∀ q, q ∈ db'.Links ↔ q = p ∨ q ∈ db.Links) ∧
        db'.Links.keys.Nodup ∧ db'.wellFormed = true ∧ db'.TimeStamp = db.TimeStamp) := by
  have hidx := index_eq_none_iff h p
  constructor
  · unfold DB.add
    cases hi : db.Links.index p with
    | none =>
      have : p ∉ db.Links := hidx.1 hi
      simp [this]
    | some v =>
      have : p ∈ db.Links := by
        by_contra hc
        rw [hidx.2 hc] at hi
        exact absurd hi (by simp)
      simp [this]
  · intro hp
    refine ⟨{ db with Links := db.Links.insert p (some l) }, ?_, ?_, ?_, ?_, ?_, ?_, rfl⟩
    · unfold DB.add
      rw [hidx.2 hp]
    · simp [GoMap.index, AList.lookup_insert]
    · intro q hq
      exact AList.lookup_insert_ne hq
    · intro q
      exact AList.mem_insert _
    · exact AList.keys_nodup _
    · unfold DB.wellFormed
      rw [List.all_eq_true]
      intro e he
      simp only [AList.insert_entries, List.mem_cons] at he
      rcases he with he | he
      · subst he
        rfl
      · exact (List.all_eq_true.1 h) e ((List.kerase_sublist _ _).subset he)

/-- C8 on the sample snapshot: adding a link at a fresh path. -/
theorem add_panics_iff_duplicate_witness :
    sampleOld.wellFormed = true ∧
    ((sampleOld.add (ascii "/t/dirlink") (some ⟨ascii "dir", .GoodLink⟩) = none ↔
        ascii "/t/dirlink" ∈ sampleOld.Links) ∧
    (ascii "/t/dirlink" ∉ sampleOld.Links →
      ∃ db', sampleOld.add (ascii "/t/dirlink") (some ⟨ascii "dir", .GoodLink⟩) = some db' ∧
        db'.Links.index (ascii "/t/dirlink") = some ⟨ascii "dir", .GoodLink⟩ ∧
        (∀ q, q ≠ ascii "/t/dirlink" → db'.Links.lookup q = sampleOld.Links.lookup q) ∧
        (∀ q, q ∈ db'.Links ↔ q = ascii "/t/dirlink" ∨ q ∈ sampleOld.Links) ∧
        db'.Links.keys.Nodup ∧ db'.wellFormed = true ∧
        db'.TimeStamp = sampleOld.TimeStamp)) :=
  ⟨by decide, add_panics_iff_duplicate sampleOld (ascii "/t/dirlink")
    ⟨ascii "dir", .GoodLink⟩ (by decide)⟩

/-! ## Diff -/

/-- Lookups after a loop that, for each entry, either stores a value under the entry's
key or leaves the map alone. -/
theorem foldl_store_lookup {β γ : Type} (h : GoString → β → Option γ)
    (l : List (Sigma fun _ : GoString => β)) (hnd : l.NodupKeys) (m0 : GoMap γ)
    (p : GoString) :
    (l.foldl (fun m e => GoMap.store m e.1 (h e.1 e.2)) m0).lookup p =
      ((l.dlookup p).bind (h p)).orElse (fun _ => m0.lookup p) := by
  induction l generalizing m0 with
  | nil => rfl
  | cons e l ih =>
    obtain ⟨k, v⟩ := e
    rw [List.nodupKeys_cons] at hnd
    rw [List.foldl_cons, ih hnd.2]
    dsimp only
    by_cases hp : p = k
    · subst hp
      rw [List.dlookup_cons_eq, List.dlookup_eq_none.2 hnd.1]
      cases hh : h p v with
      | none => simp [GoMap.store, hh]
      | some x => simp [GoMap.store, AList.lookup_insert, hh]
    · rw [List.dlookup_cons_ne _ _ hp]
      have hm0 : AList.lookup p (GoMap.store m0 k (h k v)) = m0.lookup p := by
        unfold GoMap.store
        cases h k v with
        | none => rfl
        | some x => exact AList.lookup_insert_ne hp
      rw [hm0]

theorem diffNewStep_eq (old : DB) (m : GoMap LinkPair) (k : GoString) (v : Link) :
    diffNewStep old m k (some v) = some (GoMap.store m k (diffNewValue old k (some v))) := by
  unfold diffNewStep diffNewValue GoMap.store
  cases old.Links.index k with
  | none => rfl
  | some vOld =>
    by_cases hc : vOld.Target ≠ v.Target ∨ vOld.Typ ≠ v.Typ
    · simp only [if_pos hc]
    · simp only [if_neg hc]

theorem diffOldStep_eq (db : DB) (m : GoMap LinkPair) (k : GoString) (v : Option Link) :
    diffOldStep db m k v = GoMap.store m k (diffOldValue db k v) := by
  unfold diffOldStep diffOldValue GoMap.store
  cases db.Links.index k <;> rfl

theorem diffNew_foldlM (old : DB) (l : List (Sigma fun _ : GoString => Option Link))
    (hl : ∀ e ∈ l, e.2.isSome = true) (m0 : GoMap LinkPair) :
    l.foldlM (fun m e => diffNewStep old m e.1 e.2) m0 =
      some (l.foldl (fun m e => GoMap.store m e.1 (diffNewValue old e.1 e.2)) m0) := by
  induction l generalizing m0 with
  | nil => rfl
  | cons e l ih =>
    obtain ⟨k, v⟩ := e
    have hv := hl ⟨k, v⟩ (List.mem_cons_self _ _)
    cases v with
    | none => simp at hv
    | some v =>
      rw [List.foldlM_cons, diffNewStep_eq]
      simp only [Option.bind_eq_bind, Option.some_bind, List.foldl_cons]
      exact ih (fun e he => hl e (List.mem_cons_of_mem _ he)) _

theorem link_ne_iff (v w : Link) : (w.Target ≠ v.Target ∨ w.Typ ≠ v.Typ) ↔ v ≠ w := by
  cases v
  cases w
  simp only [ne_eq, Link.mk.injEq]
  constructor
  · rintro (h | h) ⟨h1, h2⟩
    · exact h h1.symm
    · exact h h2.symm
  · intro h
    by_contra hc
    push_neg at hc
    exact h ⟨hc.1.symm, hc.2.symm⟩

/-- On snapshots, `diff` returns a map that holds, at each path where the two indexed
records differ, the pair (record of the older, record of the newer), and nothing else. -/
theorem diff_lookup (N O : DB) (hN : N.wellFormed = true) (hO : O.wellFormed = true) :
    ∃ m, N.diff O = some m ∧
      ∀ p, m.lookup p =
        if N.Links.index p = O.Links.index p then none
        else some ⟨O.Links.index p, N.Links.index p⟩ := by
  unfold DB.diff
  rw [diffNew_foldlM O N.Links.entries (List.all_eq_true.1 hN) ∅]
  refine ⟨_, rfl, ?_⟩
  intro p
  have h2 : ∀ (m : GoMap LinkPair),
      (O.Links.entries.foldl (fun m e => diffOldStep N m e.1 e.2) m) =
      (O.Links.entries.foldl (fun m e => GoMap.store m e.1 (diffOldValue N e.1 e.2)) m) := by
    intro m
    congr 1
    funext m e
    exact diffOldStep_eq N m e.1 e.2
  beta_reduce
  rw [h2, foldl_store_lookup (diffOldValue N) _ O.Links.nodupKeys,
    foldl_store_lookup (diffNewValue O) _ N.Links.nodupKeys]
  have hNl : N.Links.entries.dlookup p = N.Links.lookup p := rfl
  have hOl : O.Links.entries.dlookup p = O.Links.lookup p := rfl
  rw [hNl, hOl, AList.lookup_empty]
  cases hn : N.Links.lookup p with
  | none =>
    have hni : N.Links.index p = none := by simp [GoMap.index, hn]
    cases ho : O.Links.lookup p with
    | none =>
      have hoi : O.Links.index p = none := by simp [GoMap.index, ho]
      simp [hni, hoi]
    | some w =>
      have hw := wellFormed_entry hO ho
      cases w with
      | none => simp at hw
      | some w =>
        have hoi : O.Links.index p = some w := by simp [GoMap.index, ho]
        simp [hni, hoi, diffOldValue]
  | some v =>
    have hv := wellFormed_entry hN hn
    cases v with
    | none => simp at hv
    | some v =>
      have hni : N.Links.index p = some v := by simp [GoMap.index, hn]
      cases ho : O.Links.lookup p with
      | none =>
        have hoi : O.Links.index p = none := by simp [GoMap.index, ho]
        simp [hni, hoi, diffNewValue]
      | some w =>
        have hw := wellFormed_entry hO ho
        cases w with
        | none => simp at hw
        | some w =>
          have hoi : O.Links.index p = some w := by simp [GoMap.index, ho]
          by_cases hc : w.Target ≠ v.Target ∨ w.Typ ≠ v.Typ
          · have hne : v ≠ w := (link_ne_iff v w).1 hc
            simp [hni, hoi, diffNewValue, diffOldValue, if_pos hc, hne]
          · have heq : v = w := by
              by_contra hne
              exact hc ((link_ne_iff v w).2 hne)
            simp [hni, hoi, diffNewValue, diffOldValue, if_neg hc, heq]

theorem mem_iff_lookup_ne_none {V : Type} (m : GoMap V) (p : GoString) :
    p ∈ m ↔ m.lookup p ≠ none := by
  rw [ne_eq, AList.lookup_eq_none, not_not]

theorem index_eq_some_mem {db : DB} {p : GoString} {v : Link}
    (h : db.Links.index p = some v) : p ∈ db.Links := by
  rw [mem_iff_lookup_ne_none]
  intro hl
  simp [GoMap.index, hl] at h

/-- C1: for a newer snapshot `N`, an older snapshot `O` and a path `p`, `N.diff(O)`
returns a map in which `p` is a key exactly when `p` is in only one of `N.Links`,
`O.Links`, or is in both with records that differ in target or in category; the pair
stored at a key `p` has `oldLink` = the record of `O` at `p` (nil if there is none) and
`newLink` = the record of `N` at `p` (nil if there is none); a path whose two records
have the same target and category is not a key. -/
theorem diff_changed_paths (N O : DB) (hN : N.wellFormed = true)
    (hO : O.wellFormed = true) (p : GoString) :
    ∃ m, N.diff O = some m ∧
      (p ∈ m ↔
        ((p ∈ N.Links ∧ p ∉ O.Links) ∨ (p ∉ N.Links ∧ p ∈ O.Links) ∨
          (∃ v w, N.Links.index p = some v ∧ O.Links.index p = some w ∧
            (w.Target ≠ v.Target ∨ w.Typ ≠ v.Typ)))) ∧
      (∀ lp, m.lookup p = some lp →
        lp.oldLink = O.Links.index p ∧ lp.newLink = N.Links.index p) ∧
      ((∃ v w, N.Links.index p = some v ∧ O.Links.index p = some w ∧
          v.Target = w.Target ∧ v.Typ = w.Typ) → p ∉ m) := by
  obtain ⟨m, hm, hlook⟩ := diff_lookup N O hN hO
  have hNi := index_eq_none_iff hN p
  have hOi := index_eq_none_iff hO p
  refine ⟨m, hm, ?_, ?_, ?_⟩
  · rw [mem_iff_lookup_ne_none, hlook p]
    cases hn : N.Links.index p with
    | none =>
      have hpN : p ∉ N.Links := hNi.1 hn
      cases ho : O.Links.index p with
      | none =>
        have hpO : p ∉ O.Links := hOi.1 ho
        simp [hpN, hpO]
      | some w =>
        have hpO : p ∈ O.Links := index_eq_some_mem ho
        simp [hpN, hpO]
    | some v =>
      have hpN : p ∈ N.Links := index_eq_some_mem hn
      cases ho : O.Links.index p with
      | none =>
        have hpO : p ∉ O.Links := hOi.1 ho
        simp [hpN, hpO]
      | some w =>
        have hpO : p ∈ O.Links := index_eq_some_mem ho
        have hlink := link_ne_iff v w
        by_cases hvw : v = w
        · have : ¬ (w.Target ≠ v.Target ∨ w.Typ ≠ v.Typ) := fun hc => hlink.1 hc hvw
          simp [hpN, hpO, hvw]
        · have : w.Target ≠ v.Target ∨ w.Typ ≠ v.Typ := hlink.2 hvw
          simp [hpN, hpO, hvw, this]
  · intro lp hlp
    rw [hlook p] at hlp
    by_cases he : N.Links.index p = O.Links.index p
    · simp [he] at hlp
    · simp only [if_neg he, Option.some.injEq] at hlp
      subst hlp
      exact ⟨rfl, rfl⟩
  · rintro ⟨v, w, hv, hw, ht, hc⟩
    rw [mem_iff_lookup_ne_none, hlook p, hv, hw]
    have hvw : v = w := by
      cases v
      cases w
      simp only [Link.mk.injEq]
      exact ⟨ht, hc⟩
    simp [hvw]

/-- C1 on the two sample snapshots at `/t/good`, a link that went from Valid to
Dangling. -/
theorem diff_changed_paths_witness :
    sampleNew.wellFormed = true ∧ sampleOld.wellFormed = true ∧
    ∃ m, sampleNew.diff sampleOld = some m ∧
      (ascii "/t/good" ∈ m ↔
        ((ascii "/t/good" ∈ sampleNew.Links ∧ ascii "/t/good" ∉ sampleOld.Links) ∨
          (ascii "/t/good" ∉ sampleNew.Links ∧ ascii "/t/good" ∈ sampleOld.Links) ∨
          (∃ v w, sampleNew.Links.index (ascii "/t/good") = some v ∧
            sampleOld.Links.index (ascii "/t/good") = some w ∧
            (w.Target ≠ v.Target ∨ w.Typ ≠ v.Typ)))) ∧
      (∀ lp, m.lookup (ascii "/t/good") = some lp →
        lp.oldLink = sampleOld.Links.index (ascii "/t/good") ∧
        lp.newLink = sampleNew.Links.index (ascii "/t/good")) ∧
      ((∃ v w, sampleNew.Links.index (ascii "/t/good") = some v ∧
          sampleOld.Links.index (ascii "/t/good") = some w ∧
          v.Target = w.Target ∧ v.Typ = w.Typ) → ascii "/t/good" ∉ m) :=
  ⟨by decide, by decide,
    diff_changed_paths sampleNew sampleOld (by decide) (by decide) (ascii "/t/good")⟩

/-- C9: diffing a snapshot against itself returns the empty change set. -/
theorem diff_self_empty (S : DB) (hS : S.wellFormed = true) : S.diff S = some ∅ := by
  obtain ⟨m, hm, hlook⟩ := diff_lookup S S hS hS
  rw [hm]
  congr 1
  apply AList.ext
  cases he : m.entries with
  | nil => rfl
  | cons e l =>
    exfalso
    have hk : e.1 ∈ m := by
      rw [AList.mem_keys, AList.keys, he]
      exact List.mem_cons_self _ _
    rw [mem_iff_lookup_ne_none, hlook e.1] at hk
    simp at hk

/-- C9 on a sample snapshot. -/
theorem diff_self_empty_witness :
    sampleNew.wellFormed = true ∧ sampleNew.diff sampleNew = some ∅ :=
  ⟨by decide, diff_self_empty sampleNew (by decide)⟩

/-- C10: for snapshots `A` and `B` and a path `p`, both `A.diff(B)` and `B.diff(A)`
return, `p` is a key of the one exactly when it is a key of the other, and the pair
`B.diff(A)` stores at `p` is the pair `A.diff(B)` stores there with `oldLink` and
`newLink` exchanged. -/
theorem diff_symmetric (A B : DB) (hA : A.wellFormed = true) (hB : B.wellFormed = true)
    (p : GoString) :
    ∃ mAB mBA, A.diff B = some mAB ∧ B.diff A = some mBA ∧
      (p ∈ mAB ↔ p ∈ mBA) ∧
      (∀ lp, mAB.lookup p = some lp ↔ mBA.lookup p = some ⟨lp.newLink, lp.oldLink⟩) := by
  obtain ⟨mAB, hAB, hl1⟩ := diff_lookup A B hA hB
  obtain ⟨mBA, hBA, hl2⟩ := diff_lookup B A hB hA
  refine ⟨mAB, mBA, hAB, hBA, ?_, ?_⟩
  · rw [mem_iff_lookup_ne_none, mem_iff_lookup_ne_none, hl1 p, hl2 p]
    by_cases he : A.Links.index p = B.Links.index p
    · simp [he]
    · have he' : ¬ B.Links.index p = A.Links.index p := fun h => he h.symm
      simp [he, he']
  · intro lp
    rw [hl1 p, hl2 p]
    by_cases he : A.Links.index p = B.Links.index p
    · simp [he]
    · have he' : ¬ B.Links.index p = A.Links.index p := fun h => he h.symm
      simp only [if_neg he, if_neg he', Option.some.injEq]
      cases lp
      simp only [LinkPair.mk.injEq]
      constructor
      · rintro ⟨h1, h2⟩
        exact ⟨h2, h1⟩
      · rintro ⟨h1, h2⟩
        exact ⟨h2, h1⟩

/-- C10 on the two sample snapshots at `/t/broken`, present only in the older one. -/
theorem diff_symmetric_witness :
    sampleNew.wellFormed = true ∧ sampleOld.wellFormed = true ∧
    ∃ mAB mBA, sampleNew.diff sampleOld = some mAB ∧ sampleOld.diff sampleNew = some mBA ∧
      (ascii "/t/broken" ∈ mAB ↔ ascii "/t/broken" ∈ mBA) ∧
      (∀ lp, mAB.lookup (ascii "/t/broken") = some lp ↔
        mBA.lookup (ascii "/t/broken") = some ⟨lp.newLink, lp.oldLink⟩) :=
  ⟨by decide, by decide,
    diff_symmetric sampleNew sampleOld (by decide) (by decide) (ascii "/t/broken")⟩

/-! ## Link classifier -/

/-- C2: for a path that is a symbolic link (its `Lstat` reports the symlink mode bit and
`Readlink` gives the raw target `targ`) whose resolved target, `targ` itself if absolute
and otherwise `targ` joined with the directory of the path, cannot be stat'ed,
`inspectLink` returns `isLink = true` and, when `targ` is valid UTF-8, the category
`BrokenLink` with the target `targ` unchanged, otherwise the category `BadLink` with the
target the quoted form of `targ`. -/
theorem inspectLink_unresolved (w : World) (path targ : GoString) (fi : FileInfo)
    (hl : w.Lstat path = some fi) (hs : fi.symlink = true)
    (hr : w.Readlink path = some targ)
    (hst : w.Stat (if w.IsAbs targ = true then targ else w.Join (w.Dir path) targ) = none) :
    (w.ValidString targ = true →
      inspectLink w path = some (true, false, targ, LinkCategory.BrokenLink)) ∧
    (w.ValidString targ = false →
      inspectLink w path = some (true, false, w.Quote targ, LinkCategory.BadLink)) := by
  constructor
  · intro hv
    simp only [inspectLink, hl, hs, hr, hst, hv, if_true]
  · intro hv
    simp only [inspectLink, hl, hs, hr, hst, hv, if_true]
    rfl

/-- C2 on the sample tree at `/t/bad`, whose raw target is the byte `0xff`. -/
theorem inspectLink_unresolved_witness :
    sampleWorld.Lstat (ascii "/t/bad") = some ⟨true, false⟩ ∧
    sampleWorld.Readlink (ascii "/t/bad") = some [255] ∧
    sampleWorld.Stat (if sampleWorld.IsAbs [255] = true then [255]
      else sampleWorld.Join (sampleWorld.Dir (ascii "/t/bad")) [255]) = none ∧
    (sampleWorld.ValidString [255] = true →
      inspectLink sampleWorld (ascii "/t/bad") =
        some (true, false, [255], LinkCategory.BrokenLink)) ∧
    (sampleWorld.ValidString [255] = false →
      inspectLink sampleWorld (ascii "/t/bad") =
        some (true, false, sampleWorld.Quote [255], LinkCategory.BadLink)) :=
  ⟨by decide, by decide, by decide,
    inspectLink_unresolved sampleWorld (ascii "/t/bad") [255] ⟨true, false⟩
      (by decide) rfl (by decide) (by decide)⟩

/-- C3: for a path that is a symbolic link (its `Lstat` reports the symlink mode bit and
`Readlink` gives the raw target `targ`) whose resolved target, `targ` itself if absolute
and otherwise `targ` joined with the directory of the path, is stat'ed with result
`targFI`, `inspectLink` returns `isLink = true`, `isDir` = whether `targFI` is a
directory, the target `targ` as read, and the category `GoodLink`. -/
theorem inspectLink_resolved (w : World) (path targ : GoString) (fi targFI : FileInfo)
    (hl : w.Lstat path = some fi) (hs : fi.symlink = true)
    (hr : w.Readlink path = some targ)
    (hst : w.Stat (if w.IsAbs targ = true then targ else w.Join (w.Dir path) targ) =
      some targFI) :
    inspectLink w path = some (true, targFI.isDir, targ, LinkCategory.GoodLink) := by
  simp only [inspectLink, hl, hs, hr, hst, if_true]

/-- C3 on the sample tree at `/t/dirlink`, a link to the directory `dir`. -/
theorem inspectLink_resolved_witness :
    sampleWorld.Lstat (ascii "/t/dirlink") = some ⟨true, false⟩ ∧
    sampleWorld.Readlink (ascii "/t/dirlink") = some (ascii "dir") ∧
    sampleWorld.Stat (if sampleWorld.IsAbs (ascii "dir") = true then ascii "dir"
      else sampleWorld.Join (sampleWorld.Dir (ascii "/t/dirlink")) (ascii "dir")) =
        some ⟨false, true⟩ ∧
    inspectLink sampleWorld (ascii "/t/dirlink") =
      some (true, (⟨false, true⟩ : FileInfo).isDir, ascii "dir", LinkCategory.GoodLink) :=
  ⟨by decide, by decide, by decide,
    inspectLink_resolved sampleWorld (ascii "/t/dirlink") (ascii "dir") ⟨true, false⟩
      ⟨false, true⟩ (by decide) rfl (by decide) (by decide)⟩

/-! ## The record of a malformed link, in any world -/

/-- For a malformed link not yet in the snapshot, `walk` stores the quoted form of the
quoted raw target: `inspectLink` has quoted the target once, `walk` quotes it again. -/
theorem walk_malformed_record (w : World) (path targ : GoString) (fi : FileInfo) (db : DB)
    (count : Nat) (showProgress : Bool)
    (hl : w.Lstat path = some fi) (hs : fi.symlink = true)
    (hr : w.Readlink path = some targ)
    (hst : w.Stat (if w.IsAbs targ = true then targ else w.Join (w.Dir path) targ) = none)
    (hv : w.ValidString targ = false) (hp : db.Links.index path = none) :
    walk w path false db count showProgress =
      some (⟨db.TimeStamp,
          db.Links.insert path (some ⟨w.Quote (w.Quote targ), LinkCategory.BadLink⟩)⟩,
        if showProgress = true then (count + 1) % 2 ^ 64 else count) := by
  have hi : inspectLink w path = some (true, false, w.Quote targ, LinkCategory.BadLink) := by
    simp only [inspectLink, hl, hs, hr, hst, hv, if_true]
    rfl
  simp only [walk, hi, DB.add, hp, if_true, Bool.false_eq_true, if_false, Option.map_some']

/-- Auditing such a record against the same malformed link reports it as changed as
soon as quoting the quoted target changes it. -/
theorem auditStep_malformed (w : World) (path targ : GoString) (fi : FileInfo)
    (hl : w.Lstat path = some fi) (hs : fi.symlink = true)
    (hr : w.Readlink path = some targ)
    (hst : w.Stat (if w.IsAbs targ = true then targ else w.Join (w.Dir path) targ) = none)
    (hv : w.ValidString targ = false) (hq : w.Quote (w.Quote targ) ≠ w.Quote targ) :
    auditStep w path (some ⟨w.Quote (w.Quote targ), LinkCategory.BadLink⟩) =
      some (some ⟨ascii "Link changed:", path, w.Quote targ⟩) := by
  have hi : inspectLink w path = some (true, false, w.Quote targ, LinkCategory.BadLink) := by
    simp only [inspectLink, hl, hs, hr, hst, hv, if_true]
    rfl
  simp [auditStep, hi, hq]

/-! ## Scan and audit on the sample tree -/

/-- C4, at the malformed link `/t/bad` of the sample tree and the empty snapshot: the
classifier determines the target `"\xff"` (the raw byte `0xff` quoted once), but `walk`
records the quoted form of that, `"\"\\xff\""`, which is a different string. -/
theorem walk_requotes_malformed :
    inspectLink sampleWorld (ascii "/t/bad") =
      some (true, false, sampleQuote [255], LinkCategory.BadLink) ∧
    (walk sampleWorld (ascii "/t/bad") false ⟨0, ∅⟩ 0 false).map
        (fun r => r.1.Links.entries) =
      some [⟨ascii "/t/bad", some ⟨sampleQuote (sampleQuote [255]), LinkCategory.BadLink⟩⟩] ∧
    sampleQuote [255] = ascii "\"\\xff\"" ∧
    sampleQuote (sampleQuote [255]) = ascii "\"\\\"\\\\xff\\\"\"" ∧
    sampleQuote (sampleQuote [255]) ≠ sampleQuote [255] := by
  decide

/-- C6, on the sample tree: scanning `/t` and auditing the resulting snapshot against
the same tree reports the malformed link `/t/bad` as changed. -/
theorem audit_reports_unchanged_malformed :
    (scanCommand sampleWorld 0 false [] [ascii "/t"]).bind (auditCommand sampleWorld) =
      some [⟨ascii "Link changed:", ascii "/t/bad", sampleQuote [255]⟩] := by
  decide

/-- C5 fails for a root beneath a skipped directory: with the skip-set `/t/dir` and the
scan root `/t/dir/sub`, the snapshot holds `/t/dir/sub/lnk`, a path beneath the
directory `/t/dir`, which is in the skip-set. -/
theorem scan_root_beneath_skipped :
    ascii "/t/dir" ∈ [ascii "/t/dir"] ∧
    (sampleWorld.Tree (ascii "/t/dir")).isDir = true ∧
    ascii "/t/dir/sub/lnk" ∈
      (sampleWorld.Tree (ascii "/t/dir")).pathsBelow sampleWorld.Join (ascii "/t/dir") ∧
    (scanCommand sampleWorld 0 false [ascii "/t/dir"] [ascii "/t/dir/sub"]).map
        (fun db => db.Links.keys) = some [ascii "/t/dir/sub/lnk"] := by
  decide

/-! ## Scan: which paths get recorded -/

theorem skipFiles_fold_mem (skip : List GoString) (m0 : GoMap Bool) (p : GoString) :
    p ∈ skip.foldl (fun m v => m.insert v true) m0 ↔ p ∈ m0 ∨ p ∈ skip := by
  induction skip generalizing m0 with
  | nil => simp
  | cons v l ih =>
    rw [List.foldl_cons, ih, AList.mem_insert]
    simp only [List.mem_cons]
    tauto

theorem makeSkipFiles_lookup (skip : List GoString) (p : GoString) :
    (makeSkipFiles skip).lookup p = none ↔ p ∉ skip := by
  rw [AList.lookup_eq_none, makeSkipFiles, skipFiles_fold_mem]
  simp

theorem add_mem_iff {db d : DB} {p : GoString} {l : Option Link} (h : db.add p l = some d)
    (q : GoString) : q ∈ d.Links ↔ q ∈ db.Links ∨ q = p := by
  unfold DB.add at h
  cases hi : db.Links.index p with
  | some v => simp [hi] at h
  | none =>
    simp only [hi, Option.some.injEq] at h
    subst h
    rw [AList.mem_insert]
    exact Or.comm

theorem walk_mem_iff {w : World} {path : GoString} {err : Bool} {db : DB} {c : Nat}
    {sp : Bool} {r : DB × Nat} (h : walk w path err db c sp = some r) (q : GoString) :
    err = false ∧
    (q ∈ r.1.Links ↔
      q ∈ db.Links ∨ (q = path ∧ (inspectLink w q).map (fun x => x.1) = some true)) := by
  unfold walk at h
  cases err with
  | true => simp at h
  | false =>
    refine ⟨rfl, ?_⟩
    simp only [Bool.false_eq_true, if_false] at h
    cases hi : inspectLink w path with
    | none => simp [hi] at h
    | some res =>
      obtain ⟨isLink, isDir, target, cat⟩ := res
      simp only [hi] at h
      cases isLink with
      | false =>
        simp only [Bool.false_eq_true, if_false, Option.some.injEq] at h
        subst h
        constructor
        · exact fun hq => Or.inl hq
        · rintro (hq | ⟨hq, hl⟩)
          · exact hq
          · rw [hq, hi] at hl
            simp at hl
      | true =>
        simp only [if_true] at h
        have hlink : ∀ d : DB, db.add path (some ⟨(match cat with
              | .BadLink => w.Quote target
              | _ => target), cat⟩) = some d →
            (q ∈ d.Links ↔ q ∈ db.Links ∨
              (q = path ∧ (inspectLink w q).map (fun x => x.1) = some true)) := by
          intro d hd
          rw [add_mem_iff hd q]
          constructor
          · rintro (hq | hq)
            · exact Or.inl hq
            · refine Or.inr ⟨hq, ?_⟩
              rw [hq, hi]
              rfl
          · rintro (hq | ⟨hq, _⟩)
            · exact Or.inl hq
            · exact Or.inr hq
        cases cat <;>
        · simp only [Option.map_eq_some'] at h
          obtain ⟨d, hd, hr⟩ := h
          subst hr
          exact hlink d hd

theorem fnc_skipped {w : World} {skip : List GoString} {sp : Bool} {path : GoString}
    {info : Option FileInfo} {err : Bool} {st : DB × Nat} {r : WalkErr} {st' : DB × Nat}
    (hp : path ∈ skip)
    (h : fnc w (makeSkipFiles skip) sp path info err st = some (r, st')) :
    st' = st ∧ ∃ fi, info = some fi ∧
      r = if fi.isDir = true then WalkErr.SkipDir else WalkErr.nil := by
  unfold fnc at h
  cases hs : (makeSkipFiles skip).lookup path with
  | none => exact absurd hp ((makeSkipFiles_lookup skip path).1 hs)
  | some b =>
    simp only [hs] at h
    cases info with
    | none => simp at h
    | some fi =>
      simp only at h
      cases hd : fi.isDir with
      | true =>
        simp only [hd, if_true, Option.some.injEq, Prod.mk.injEq] at h
        exact ⟨h.2.symm, fi, rfl, by simp [hd, h.1]⟩
      | false =>
        simp only [hd, Bool.false_eq_true, if_false, Option.some.injEq,
          Prod.mk.injEq] at h
        exact ⟨h.2.symm, fi, rfl, by simp [hd, h.1]⟩

theorem fnc_unskipped {w : World} {skip : List GoString} {sp : Bool} {path : GoString}
    {info : Option FileInfo} {err : Bool} {st : DB × Nat} {r : WalkErr} {st' : DB × Nat}
    (hp : path ∉ skip)
    (h : fnc w (makeSkipFiles skip) sp path info err st = some (r, st')) (q : GoString) :
    r = WalkErr.nil ∧ err = false ∧
    (q ∈ st'.1.Links ↔
      q ∈ st.1.Links ∨ (q = path ∧ (inspectLink w q).map (fun x => x.1) = some true)) := by
  unfold fnc at h
  rw [(makeSkipFiles_lookup skip path).2 hp] at h
  simp only [Option.map_eq_some', Prod.mk.injEq] at h
  obtain ⟨r', hw, hr1, hr2⟩ := h
  subst hr2
  have := walk_mem_iff hw q
  exact ⟨hr1.symm, this.1, this.2⟩

mutual
/-- Nothing the spec's visits hold is in the skip-set. -/
theorem Entry.specVisited_not_skipped (join : GoString → GoString → GoString)
    (skip : List GoString) :
    (e : Entry) → ∀ (path q : GoString), q ∈ e.specVisited join skip path → q ∉ skip
  | .lstatErr, path, q, h => by
    rw [Entry.specVisited] at h
    by_cases hp : path ∈ skip
    · simp [hp] at h
    · simp only [hp, if_false, List.mem_singleton] at h
      exact h ▸ hp
  | .file, path, q, h => by
    rw [Entry.specVisited] at h
    by_cases hp : path ∈ skip
    · simp [hp] at h
    · simp only [hp, if_false, List.mem_singleton] at h
      exact h ▸ hp
  | .symlink, path, q, h => by
    rw [Entry.specVisited] at h
    by_cases hp : path ∈ skip
    · simp [hp] at h
    · simp only [hp, if_false, List.mem_singleton] at h
      exact h ▸ hp
  | .dir _ children, path, q, h => by
    rw [Entry.specVisited] at h
    by_cases hp : path ∈ skip
    · simp [hp] at h
    · simp only [hp, if_false, List.mem_cons] at h
      rcases h with h | h
      · exact h ▸ hp
      · exact Entries.specVisited_list_not_skipped join skip children path q h
/-- The same for the entries of a directory. -/
theorem Entries.specVisited_list_not_skipped (join : GoString → GoString → GoString)
    (skip : List GoString) :
    (es : Entries) → ∀ (path q : GoString), q ∈ es.specVisited join skip path → q ∉ skip
  | .nil, path, q, h => by
    rw [Entries.specVisited] at h
    simp at h
  | .cons name e rest, path, q, h => by
    rw [Entries.specVisited, List.mem_append] at h
    rcases h with h | h
    · exact Entry.specVisited_not_skipped join skip e (join path name) q h
    · exact Entries.specVisited_list_not_skipped join skip rest path q h
end

/-- A callback on a non-directory: it never returns `SkipDir`, and the paths recorded
afterwards are those recorded before and, if it is a link and not skipped, the path. -/
theorem fnc_nondir_spec {w : World} {skip : List GoString} {sp : Bool} {path : GoString}
    {symlink : Bool} {st : DB × Nat} {r : WalkErr} {st' : DB × Nat}
    (h : fnc w (makeSkipFiles skip) sp path (some ⟨symlink, false⟩) false st =
      some (r, st')) (q : GoString) :
    r = WalkErr.nil ∧
    (q ∈ st'.1.Links ↔
      q ∈ st.1.Links ∨
        (q ∈ (if path ∈ skip then [] else [path]) ∧
          (inspectLink w q).map (fun x => x.1) = some true)) := by
  by_cases hp : path ∈ skip
  · obtain ⟨hst, fi, hfi, hr⟩ := fnc_skipped hp h
    simp only [Option.some.injEq] at hfi
    subst hfi
    subst hst
    simp only [Bool.false_eq_true, if_false] at hr
    refine ⟨hr, ?_⟩
    simp only [hp, if_true, List.not_mem_nil, false_and, or_false]
  · obtain ⟨hr, _, hq⟩ := fnc_unskipped hp h q
    simp only [hp, if_false, List.mem_singleton]
    exact ⟨hr, hq⟩

mutual
/-- The walk of an entry records exactly the links among the spec's visits of it, and
returns `SkipDir` only for a directory. -/
theorem walkEntry_spec (w : World) (skip : List GoString) (sp : Bool) :
    (e : Entry) → ∀ (path : GoString) (st : DB × Nat) (r : WalkErr) (st' : DB × Nat),
      walkEntry w.Join (fnc w (makeSkipFiles skip) sp) path e st = some (r, st') →
      (r ≠ WalkErr.nil → e.isDir = true) ∧
      ∀ q, (q ∈ st'.1.Links ↔
        q ∈ st.1.Links ∨
          (q ∈ e.specVisited w.Join skip path ∧
            (inspectLink w q).map (fun x => x.1) = some true))
  | .lstatErr, path, st, r, st', h => by
    rw [walkEntry] at h
    exfalso
    by_cases hp : path ∈ skip
    · obtain ⟨_, fi, hfi, _⟩ := fnc_skipped hp h
      simp at hfi
    · have := (fnc_unskipped hp h path).2.1
      simp at this
  | .file, path, st, r, st', h => by
    rw [walkEntry] at h
    rw [Entry.specVisited]
    exact ⟨fun hr => absurd (fnc_nondir_spec h path).1 hr, fun q => (fnc_nondir_spec h q).2⟩
  | .symlink, path, st, r, st', h => by
    rw [walkEntry] at h
    rw [Entry.specVisited]
    exact ⟨fun hr => absurd (fnc_nondir_spec h path).1 hr, fun q => (fnc_nondir_spec h q).2⟩
  | .dir readErr children, path, st, r, st', h => by
    refine ⟨fun _ => rfl, ?_⟩
    rw [walkEntry] at h
    rw [Entry.specVisited]
    cases hf : fnc w (makeSkipFiles skip) sp path (some ⟨false, true⟩) readErr st with
    | none => simp [hf] at h
    | some res =>
      obtain ⟨err1, st1⟩ := res
      simp only [hf] at h
      by_cases hp : path ∈ skip
      · obtain ⟨hst, fi, hfi, hr⟩ := fnc_skipped hp hf
        simp only [Option.some.injEq] at hfi
        subst hfi
        simp only [if_true] at hr
        subst hr
        subst hst
        simp only [ne_eq, reduceCtorEq, not_false_eq_true, or_true, if_true,
          Option.some.injEq, Prod.mk.injEq] at h
        intro q
        rw [← h.2]
        simp only [hp, if_true, List.not_mem_nil, false_and, or_false]
      · intro q
        obtain ⟨hr, herr, _⟩ := fnc_unskipped hp hf q
        subst hr
        subst herr
        simp only [Bool.false_eq_true, ne_eq, not_true_eq_false, or_self, if_false] at h
        have hch := walkEntries_spec w skip sp children path st1 r st' h q
        rw [hch, (fnc_unskipped hp hf q).2.2]
        simp only [hp, if_false, List.mem_cons]
        constructor
        · rintro ((hq | ⟨hq, hl⟩) | ⟨hq, hl⟩)
          · exact Or.inl hq
          · exact Or.inr ⟨Or.inl hq, hl⟩
          · exact Or.inr ⟨Or.inr hq, hl⟩
        · rintro (hq | ⟨hq | hq, hl⟩)
          · exact Or.inl (Or.inl hq)
          · exact Or.inl (Or.inr ⟨hq, hl⟩)
          · exact Or.inr ⟨hq, hl⟩
/-- The loop over the entries of a directory records exactly the links among the spec's
visits of them: no entry ends the loop early. -/
theorem walkEntries_spec (w : World) (skip : List GoString) (sp : Bool) :
    (es : Entries) → ∀ (path : GoString) (st : DB × Nat) (r : WalkErr) (st' : DB × Nat),
      walkEntries w.Join (fnc w (makeSkipFiles skip) sp) path es st = some (r, st') →
      ∀ q, (q ∈ st'.1.Links ↔
        q ∈ st.1.Links ∨
          (q ∈ es.specVisited w.Join skip path ∧
            (inspectLink w q).map (fun x => x.1) = some true))
  | .nil, path, st, r, st', h => by
    rw [walkEntries] at h
    simp only [Option.some.injEq, Prod.mk.injEq] at h
    intro q
    rw [← h.2, Entries.specVisited]
    simp only [List.not_mem_nil, false_and, or_false]
  | .cons name e rest, path, st, r, st', h => by
    rw [walkEntries] at h
    cases hw : walkEntry w.Join (fnc w (makeSkipFiles skip) sp) (w.Join path name) e st with
    | none => simp [hw] at h
    | some res =>
      obtain ⟨err, st1⟩ := res
      simp only [hw] at h
      have he := walkEntry_spec w skip sp e (w.Join path name) st err st1 hw
      have hc : ¬ (err ≠ WalkErr.nil ∧ e.info ≠ none ∧ e.isDir = false) := by
        rintro ⟨h1, _, h3⟩
        rw [he.1 h1] at h3
        exact absurd h3 (by decide)
      rw [if_neg hc] at h
      intro q
      rw [walkEntries_spec w skip sp rest path st1 r st' h q, he.2 q, Entries.specVisited,
        List.mem_append]
      constructor
      · rintro ((hq | ⟨hq, hl⟩) | ⟨hq, hl⟩)
        · exact Or.inl hq
        · exact Or.inr ⟨Or.inl hq, hl⟩
        · exact Or.inr ⟨Or.inr hq, hl⟩
      · rintro (hq | ⟨hq | hq, hl⟩)
        · exact Or.inl (Or.inl hq)
        · exact Or.inl (Or.inr ⟨hq, hl⟩)
        · exact Or.inr ⟨hq, hl⟩
end

/-- The walks of a list of roots, one after the other. -/
theorem scan_fold_spec (w : World) (skip : List GoString) (sp : Bool) (l : List GoString) :
    ∀ (st0 st : DB × Nat),
      l.foldlM
        (fun st f =>
          (walkEntry w.Join (fnc w (makeSkipFiles skip) sp) f (w.Tree f) st).map
            (fun r => r.2)) st0 = some st →
      ∀ q, (q ∈ st.1.Links ↔
        q ∈ st0.1.Links ∨
          ∃ root, root ∈ l ∧ q ∈ (w.Tree root).specVisited w.Join skip root ∧
            (inspectLink w q).map (fun x => x.1) = some true) := by
  induction l with
  | nil =>
    intro st0 st h q
    simp only [List.foldlM_nil, Option.pure_def, Option.some.injEq] at h
    subst h
    simp only [List.not_mem_nil, false_and, exists_false, or_false]
  | cons f l ih =>
    intro st0 st h q
    rw [List.foldlM_cons] at h
    cases hs : (walkEntry w.Join (fnc w (makeSkipFiles skip) sp) f (w.Tree f) st0).map
        (fun r => r.2) with
    | none => simp [hs] at h
    | some st1 =>
      simp only [hs, Option.bind_eq_bind, Option.some_bind] at h
      simp only [Option.map_eq_some'] at hs
      obtain ⟨res, hres, hr2⟩ := hs
      obtain ⟨r, s1⟩ := res
      simp only at hr2
      subst hr2
      rw [ih s1 st h q, (walkEntry_spec w skip sp (w.Tree f) f st0 r s1 hres).2 q]
      simp only [List.mem_cons, exists_eq_or_imp]
      exact or_assoc

/-- C5, as the code has it: when the scan returns a snapshot, its recorded paths are
exactly the symbolic links among the paths visited from the scan roots, where an entry
whose path is in the skip-set is not visited and nothing beneath it is (a skipped
directory's subtree is pruned), and the entries of a directory are visited one after
the other whatever became of the one before (a skipped non-directory is skipped alone).
So no recorded path is in the skip-set, and none is reached through a skipped
directory; a root that itself lies beneath a skipped directory is walked all the same. -/
theorem scan_respects_skips (w : World) (now : Nat) (showProgress : Bool)
    (skip args : List GoString) (db : DB)
    (h : scanCommand w now showProgress skip args = some db) (q : GoString) :
    (q ∈ db.Links ↔
      ∃ files, scanFiles w args = some files ∧
        ∃ root, root ∈ files ∧ q ∈ (w.Tree root).specVisited w.Join skip root ∧
          (inspectLink w q).map (fun x => x.1) = some true) ∧
    (q ∈ db.Links → q ∉ skip) ∧
    (∀ (e : Entry) (p : GoString), p ∈ skip → e.specVisited w.Join skip p = []) ∧
    (∀ (readErr : Bool) (children : Entries) (p : GoString), p ∉ skip →
      (Entry.dir readErr children).specVisited w.Join skip p =
        p :: children.specVisited w.Join skip p) ∧
    (∀ (name : GoString) (e : Entry) (rest : Entries) (p : GoString),
      (Entries.cons name e rest).specVisited w.Join skip p =
        e.specVisited w.Join skip (w.Join p name) ++ rest.specVisited w.Join skip p) := by
  have hmain : q ∈ db.Links ↔
      ∃ files, scanFiles w args = some files ∧
        ∃ root, root ∈ files ∧ q ∈ (w.Tree root).specVisited w.Join skip root ∧
          (inspectLink w q).map (fun x => x.1) = some true := by
    unfold scanCommand at h
    cases hf : scanFiles w args with
    | none => simp [hf] at h
    | some files =>
      simp only [hf, Option.map_eq_some'] at h
      obtain ⟨st, hfold, hst⟩ := h
      subst hst
      rw [scan_fold_spec w skip showProgress files _ st hfold q]
      constructor
      · rintro (hq | hq)
        · exact absurd hq (AList.not_mem_empty q)
        · exact ⟨files, rfl, hq⟩
      · rintro ⟨files', hf', hq⟩
        simp only [Option.some.injEq] at hf'
        subst hf'
        exact Or.inr hq
  refine ⟨hmain, ?_, ?_, ?_, ?_⟩
  · intro hq
    obtain ⟨files, _, root, _, hv, _⟩ := hmain.1 hq
    exact Entry.specVisited_not_skipped w.Join skip (w.Tree root) root q hv
  · intro e p hp
    cases e <;> simp [Entry.specVisited, hp]
  · intro readErr children p hp
    simp [Entry.specVisited, hp]
  · intro name e rest p
    simp [Entries.specVisited]

/-- C5 as amended, on the sample tree: scanning `/t` with `/t/dir` skipped, at the valid
link `/t/dir/dirfilelink`, which lies in the pruned subtree. -/
theorem scan_respects_skips_witness :
    scanCommand sampleWorld 0 false [ascii "/t/dir"] [ascii "/t"] = some sampleScanned ∧
    ((ascii "/t/dir/dirfilelink" ∈ sampleScanned.Links ↔
      ∃ files, scanFiles sampleWorld [ascii "/t"] = some files ∧
        ∃ root, root ∈ files ∧
          ascii "/t/dir/dirfilelink" ∈
            (sampleWorld.Tree root).specVisited sampleWorld.Join [ascii "/t/dir"] root ∧
          (inspectLink sampleWorld (ascii "/t/dir/dirfilelink")).map (fun x => x.1) =
            some true) ∧
    (ascii "/t/dir/dirfilelink" ∈ sampleScanned.Links →
      ascii "/t/dir/dirfilelink" ∉ [ascii "/t/dir"]) ∧
    (∀ (e : Entry) (p : GoString), p ∈ [ascii "/t/dir"] →
      e.specVisited sampleWorld.Join [ascii "/t/dir"] p = []) ∧
    (∀ (readErr : Bool) (children : Entries) (p : GoString), p ∉ [ascii "/t/dir"] →
      (Entry.dir readErr children).specVisited sampleWorld.Join [ascii "/t/dir"] p =
        p :: children.specVisited sampleWorld.Join [ascii "/t/dir"] p) ∧
    (∀ (name : GoString) (e : Entry) (rest : Entries) (p : GoString),
      (Entries.cons name e rest).specVisited sampleWorld.Join [ascii "/t/dir"] p =
        e.specVisited sampleWorld.Join [ascii "/t/dir"] (sampleWorld.Join p name) ++
          rest.specVisited sampleWorld.Join [ascii "/t/dir"] p)) :=
  ⟨rfl,
    scan_respects_skips sampleWorld 0 false [ascii "/t/dir"] [ascii "/t"] sampleScanned rfl
      (ascii "/t/dir/dirfilelink")⟩

end FindBrokenSymlinks
